import Mathlib

/-!
Shallow embedding of the SkillMatch analysis pipeline (src/analysis.py).

Conventions of the embedding:
* Python floats are modelled as exact rationals (`ℚ`); every arithmetic
  operation the analysed code performs (set-cardinality counts, one division,
  a sum, comparisons against a threshold) is exact on the values involved.
* Python `str.lower()` is modelled by `lowerString` (ASCII case folding).
* A Python `set` is modelled as a duplicate-free `List String` kept in
  discovery order.  CPython's set iteration order is unspecified; every
  property proved below depends only on membership and cardinality of these
  lists, never on their order.
* Network calls (`requests.get` and JSON decoding) are modelled by oracles:
  `fetch : String → Option VacancyData` where `none` stands for a raised
  `requests.RequestException` (which, since requests 2.27, also covers JSON
  decode failures), and a `questionsOracle` standing for the composition
  `get_interview_questions(get_vacancy_easyoffer(title))`.
* An uncaught Python exception escaping a function is modelled by a dedicated
  constructor of the result type (`EvalOutcome.zeroDivisionError`).
-/

namespace SkillMatch

/-- Python `str.lower()` modelled character by character (ASCII case
folding), written so that concrete instances evaluate by kernel reduction. -/
def lowerString (s : String) : String := String.mk (s.data.map Char.toLower)

/-- The number of distinct elements of `user_skills` that also occur in
`vacancy_skills`: `len(set(user_skills).intersection(set(vacancy_skills)))`. -/
def intersectionCount (user_skills vacancy_skills : List String) : Nat :=
  (user_skills.dedup.filter (fun s => decide (s ∈ vacancy_skills))).length

/-- Embedding of `calculate_precision` (src/analysis.py:128-151):
`if len(vacancy_skills) == 0: return 0` and otherwise
`len(set(user_skills) & set(vacancy_skills)) / len(vacancy_skills)`.
Note the divisor is the *length of the list* `vacancy_skills`, not the
cardinality of its set of elements. -/
def calculate_precision (user_skills vacancy_skills : List String) : ℚ :=
  if vacancy_skills.length = 0 then 0
  else (intersectionCount user_skills vacancy_skills : ℚ) / (vacancy_skills.length : ℚ)

/-- A vacancy record as built inside `vacancy_description_and_applicant_skills`:
the dict with keys `name`, `alternate_url`, `description`, `vacancy_skills`,
`similarity`. -/
structure Vacancy where
  name : String
  alternate_url : String
  description : String
  vacancy_skills : List String
  similarity : ℚ
deriving DecidableEq, Repr

/-- Insert `a` into an already-processed suffix, placing it before the first
element whose similarity is `≤ a.similarity`.  Folding this over the input
reproduces the output of Python's stable `sorted(..., key=similarity,
reverse=True)`: the unique descending order in which elements of equal
similarity keep their original relative order. -/
def insertDesc (a : Vacancy) : List Vacancy → List Vacancy
  | [] => [a]
  | b :: rest =>
    if b.similarity ≤ a.similarity then a :: b :: rest else b :: insertDesc a rest

/-- The stable descending sort by `similarity` used by `get_top_vacancies`
(src/analysis.py:174): `sorted(vacancies, key=lambda x: x["similarity"],
reverse=True)`. -/
def sortDescBySimilarity : List Vacancy → List Vacancy
  | [] => []
  | a :: rest => insertDesc a (sortDescBySimilarity rest)

/-- Python's prefix slice `l[:n]` for an `int` bound `n`: for `n ≥ 0` the
first `n` elements, for `n < 0` everything but the last `|n|` elements. -/
def pySliceTo (l : List Vacancy) (n : Int) : List Vacancy :=
  if 0 ≤ n then l.take n.toNat else l.take (l.length - n.natAbs)

/-- Embedding of `get_top_vacancies` (src/analysis.py:153-178): stable sort by
similarity descending, then the Python slice `[:top_n]`.  The Python default
for `top_n` is 3. -/
def get_top_vacancies (vacancies : List Vacancy) (top_n : Int := 3) : List Vacancy :=
  pySliceTo (sortDescBySimilarity vacancies) top_n

/-- Embedding of `recommend_courses` (src/analysis.py:180-188): the loop
appending `(skill, f"https://www.coursera.org/search?query={skill}")` for each
skill, with the skill text interpolated verbatim (no percent-encoding). -/
def recommend_courses (skills : List String) : List (String × String) :=
  skills.foldl
    (fun recommendations skill =>
      recommendations ++ [(skill, "https://www.coursera.org/search?query=" ++ skill)])
    []

/-- Embedding of `get_missing_skills` (src/analysis.py:190-194):
`list(set(required_skills) - set(user_skills))`, modelled as the duplicate-free
list of elements of `required_skills` that are not in `user_skills` (first
occurrences, in order; CPython's set order is unspecified, membership and
cardinality agree). -/
def get_missing_skills (user_skills required_skills : List String) : List String :=
  (required_skills.filter (fun s => decide (s ∉ user_skills))).dedup

/-- `acc.update(xs)` on the Python set `acc` modelled as a duplicate-free list:
append the members of `xs` not already present. -/
def setUpdate (acc xs : List String) : List String :=
  acc ++ xs.filter (fun s => decide (s ∉ acc))

/-- The `missing_skills` set accumulated by the loop of
`generate_recommendations` (src/analysis.py:216-221): union of the
missing-skill sets of the vacancies whose similarity is strictly below the
threshold. -/
def missingUnion (applicant_skills : List String) (vacancies : List Vacancy) (threshold : ℚ) :
    List String :=
  vacancies.foldl
    (fun acc v =>
      if v.similarity < threshold then
        setUpdate acc (get_missing_skills applicant_skills v.vacancy_skills)
      else acc)
    []

/-- Hexadecimal digit (uppercase) of a value below 16, as written by Python's
`urllib.parse.quote_plus`. -/
def hexDigit (n : Nat) : Char :=
  if n < 10 then Char.ofNat (48 + n) else Char.ofNat (55 + n)

/-- `%XX` percent-escape of one byte. -/
def percentByte (b : Nat) : String :=
  String.mk ['%', hexDigit (b / 16), hexDigit (b % 16)]

/-- UTF-8 byte sequence of one code point. -/
def utf8Bytes (c : Char) : List Nat :=
  let n := c.toNat
  if n < 128 then [n]
  else if n < 2048 then [192 + n / 64, 128 + n % 64]
  else if n < 65536 then [224 + n / 4096, 128 + n / 64 % 64, 128 + n % 64]
  else [240 + n / 262144, 128 + n / 4096 % 64, 128 + n / 64 % 64, 128 + n % 64]

/-- A character `urllib.parse.quote_plus` leaves unescaped: ASCII
alphanumerics and `_ . - ~`. -/
def isSafeChar (c : Char) : Bool :=
  c.isAlphanum || c = '_' || c = '.' || c = '-' || c = '~'

/-- Embedding of `urllib.parse.quote_plus`: safe characters kept, space
becomes `+`, every other character percent-escaped byte by byte (UTF-8,
uppercase hex). -/
def quote_plus (s : String) : String :=
  String.join (s.toList.map (fun c =>
    if isSafeChar c then String.mk [c]
    else if c = ' ' then "+"
    else String.join ((utf8Bytes c).map percentByte)))

/-- The value returned by `generate_recommendations`: a broad course-search
URL (`str`), a list of per-skill course links (`list`), or Python's implicit
`None` when neither `return` is reached. -/
inductive RecResult where
  | broadLink (url : String)
  | courseList (courses : List (String × String))
  | noneVal
deriving DecidableEq, Repr

/-- Embedding of `generate_recommendations` (src/analysis.py:196-228).  The
Python default for `threshold` is `0.8`. -/
def generate_recommendations (vacancy_title : String) (applicant_skills : List String)
    (vacancies : List Vacancy) (threshold : ℚ := 4/5) : RecResult :=
  if 3 < (missingUnion applicant_skills vacancies threshold).length then
    .broadLink ("https://www.coursera.org/search?query=" ++ quote_plus vacancy_title)
  else if missingUnion applicant_skills vacancies threshold = [] then .noneVal
  else .courseList (recommend_courses (missingUnion applicant_skills vacancies threshold))

/-- The fields `vacancy_description_and_applicant_skills` reads out of one
successfully fetched and JSON-decoded vacancy response. -/
structure VacancyData where
  name : String
  alternate_url : String
  description : String
  key_skills : List String
deriving DecidableEq, Repr

/-- The record the fetch loop builds from one response (src/analysis.py:272-287):
skills lower-cased, precision computed against the (already lower-cased)
applicant skills. -/
def mkVacancy (applicant_skills : List String) (d : VacancyData) : Vacancy :=
  { name := d.name
    alternate_url := d.alternate_url
    description := d.description
    vacancy_skills := d.key_skills.map lowerString
    similarity := calculate_precision applicant_skills (d.key_skills.map lowerString) }

/-- The fetch loop of `vacancy_description_and_applicant_skills`
(src/analysis.py:267-287): one `requests.get` per link inside the single
`try` block, so the first failing fetch raises `RequestException` out of the
loop and no further link is processed (`none`); on success it accumulates the
precision list and the vacancy list in input order. -/
def fetchLoop (fetch : String → Option VacancyData) (applicant_skills : List String) :
    List String → Option (List ℚ × List Vacancy)
  | [] => some ([], [])
  | link :: rest =>
    match fetch link with
    | none => none
    | some d =>
      match fetchLoop fetch applicant_skills rest with
      | none => none
      | some (precisions, vacancies) =>
        some ((mkVacancy applicant_skills d).similarity :: precisions,
          mkVacancy applicant_skills d :: vacancies)

/-- Which branch the returned dict records: `questions`/`offers` (ready) or
`recommendations` (not ready). -/
inductive Branch where
  | ready (questions : List String) (offers : List Vacancy)
  | notReady (recommendations : RecResult)
deriving DecidableEq, Repr

/-- The dict returned on the normal path: `similarity_score`,
`precision_list`, and the branch-dependent keys. -/
structure AnalysisResult where
  similarity_score : ℚ
  precision_list : List ℚ
  branch : Branch
deriving DecidableEq, Repr

/-- Possible outcomes of a call to `vacancy_description_and_applicant_skills`:
a normal dict, the `None` returned when a `RequestException` is caught
(src/analysis.py:304-305), or the `ZeroDivisionError` raised uncaught by
`sum(precisions) / len(precisions)` when the loop produced no precision
values (a `ZeroDivisionError` is not a `requests.RequestException`, so the
`except` clause does not catch it). -/
inductive EvalOutcome where
  | ok (r : AnalysisResult)
  | noneResult
  | zeroDivisionError
deriving DecidableEq, Repr

/-- Embedding of `vacancy_description_and_applicant_skills`
(src/analysis.py:230-305).  `questionsOracle` stands for
`get_interview_questions(get_vacancy_easyoffer(·))`.  The ready branch calls
`get_top_vacancies(vacancies)` with its default `top_n = 3`; the not-ready
branch calls `generate_recommendations` *without* a threshold argument, hence
with its own default `0.8` whatever `threshold_ready` is.  The Python default
for `threshold_ready` is `0.8`. -/
def vacancy_description_and_applicant_skills (fetch : String → Option VacancyData)
    (questionsOracle : String → List String) (vacancy_title : String)
    (applicant_skills : List String) (links : List String)
    (threshold_ready : ℚ := 4/5) : EvalOutcome :=
  match fetchLoop fetch (applicant_skills.map lowerString) links with
  | none => .noneResult
  | some (precisions, vacancies) =>
    if precisions.length = 0 then .zeroDivisionError
    else if threshold_ready ≤ precisions.sum / (precisions.length : ℚ) then
      .ok { similarity_score := precisions.sum / (precisions.length : ℚ)
            precision_list := precisions
            branch := .ready (questionsOracle vacancy_title) (get_top_vacancies vacancies) }
    else
      .ok { similarity_score := precisions.sum / (precisions.length : ℚ)
            precision_list := precisions
            branch := .notReady
              (generate_recommendations vacancy_title (applicant_skills.map lowerString)
                vacancies) }

/-! ### Helper lemmas about the precision calculator -/

lemma intersectionCount_eq_card (S R : List String) :
    intersectionCount S R = (S.toFinset ∩ R.toFinset).card := by
  have hnd : (S.dedup.filter (fun s => decide (s ∈ R))).Nodup := S.nodup_dedup.filter _
  rw [intersectionCount, ← List.toFinset_card_of_nodup hnd]
  congr 1
  ext x
  simp [List.mem_filter, List.mem_dedup]

lemma intersectionCount_le_card (S R : List String) :
    intersectionCount S R ≤ R.toFinset.card := by
  rw [intersectionCount_eq_card]
  exact Finset.card_le_card Finset.inter_subset_right

lemma intersectionCount_le_length (S R : List String) :
    intersectionCount S R ≤ R.length :=
  le_trans (intersectionCount_le_card S R)
    (R.card_toFinset ▸ R.dedup_sublist.length_le)

lemma calculate_precision_nonneg (S R : List String) : 0 ≤ calculate_precision S R := by
  rw [calculate_precision]
  split
  · exact le_refl 0
  · exact div_nonneg (by positivity) (by positivity)

lemma calculate_precision_le_one (S R : List String) : calculate_precision S R ≤ 1 := by
  rw [calculate_precision]
  split
  · exact zero_le_one
  · rename_i h
    rw [div_le_one (by exact_mod_cast Nat.pos_of_ne_zero h)]
    exact_mod_cast intersectionCount_le_length S R

/-- C1: for an applicant skill set `S` and a duplicate-free required skill set
`R`, `calculate_precision` returns `0` when `R` is empty and
`|S ∩ R| / |R|` otherwise.  The embedded function is total by construction
(it is a Lean `def` into `ℚ`), matching "total and never fails". -/
theorem calculate_precision_spec (S R : List String) (hR : R.Nodup) :
    calculate_precision S R =
      if R = [] then 0
      else ((S.toFinset ∩ R.toFinset).card : ℚ) / (R.toFinset.card : ℚ) := by
  by_cases h : R = []
  · subst h
    simp [calculate_precision]
  · rw [if_neg h, calculate_precision,
      if_neg (fun hl => h (List.length_eq_zero.mp hl)), intersectionCount_eq_card,
      List.toFinset_card_of_nodup hR]

/-- Witness for C1 at the spec's Scenario A: applicant `{python, sql}`,
requirement `{python, sql, docker}`. -/
theorem calculate_precision_spec_witness :
    (["python", "sql", "docker"] : List String).Nodup ∧
      calculate_precision ["python", "sql"] ["python", "sql", "docker"] =
        if (["python", "sql", "docker"] : List String) = [] then 0
        else (((["python", "sql"] : List String).toFinset ∩
            (["python", "sql", "docker"] : List String).toFinset).card : ℚ) /
          (((["python", "sql", "docker"] : List String).toFinset.card : ℚ)) :=
  ⟨by decide, calculate_precision_spec _ _ (by decide)⟩

/-- C8: for duplicate-free skill lists (finite sets), the precision is `1`
exactly when every required skill is an applicant skill and the requirement is
non-empty. -/
theorem precision_eq_one_iff (S R : List String) (hR : R.Nodup) :
    calculate_precision S R = 1 ↔ ((∀ r ∈ R, r ∈ S) ∧ R ≠ []) := by
  by_cases h : R = []
  · subst h
    simp [calculate_precision]
  · have hlen : R.length ≠ 0 := fun hl => h (List.length_eq_zero.mp hl)
    have hcast : (R.length : ℚ) ≠ 0 := by exact_mod_cast hlen
    rw [calculate_precision, if_neg hlen, intersectionCount_eq_card,
      div_eq_one_iff_eq hcast]
    constructor
    · intro hcard
      refine ⟨fun r hr => ?_, h⟩
      have hcard' : (S.toFinset ∩ R.toFinset).card = R.length := by exact_mod_cast hcard
      have hsub : S.toFinset ∩ R.toFinset = R.toFinset :=
        Finset.eq_of_subset_of_card_le Finset.inter_subset_right
          (by rw [hcard', List.toFinset_card_of_nodup hR])
      have : r ∈ S.toFinset ∩ R.toFinset := by
        rw [hsub]
        exact List.mem_toFinset.mpr hr
      exact List.mem_toFinset.mp (Finset.mem_inter.mp this).1
    · rintro ⟨hsub, -⟩
      have : S.toFinset ∩ R.toFinset = R.toFinset :=
        Finset.inter_eq_right.mpr
          (fun r hr => List.mem_toFinset.mpr (hsub r (List.mem_toFinset.mp hr)))
      rw [this, List.toFinset_card_of_nodup hR]

/-- Witness for C8: applicant `{python, sql}` fully covers requirement
`{python}`, so the precision is `1`. -/
theorem precision_eq_one_iff_witness :
    (["python"] : List String).Nodup ∧
      (calculate_precision ["python", "sql"] ["python"] = 1 ↔
        ((∀ r ∈ (["python"] : List String), r ∈ (["python", "sql"] : List String)) ∧
          (["python"] : List String) ≠ [])) :=
  ⟨by decide, precision_eq_one_iff _ _ (by decide)⟩

/-- C9 (amended): whenever the required-skills sequence contains duplicates,
the result is at most the set-based ratio and lies in `[0, 1]`; it is
*strictly* smaller exactly when at least one applicant skill occurs in the
requirements (non-empty intersection), and with an empty intersection both
the result and the set-based ratio are `0`.  (The unamended claim asserts the
strict inequality for every duplicated input — see the counterexample.) -/
theorem precision_duplicates_strict (S R : List String) (hdup : ¬ R.Nodup) :
    calculate_precision S R ≤
        ((S.toFinset ∩ R.toFinset).card : ℚ) / (R.toFinset.card : ℚ) ∧
      0 ≤ calculate_precision S R ∧ calculate_precision S R ≤ 1 ∧
      (calculate_precision S R <
          ((S.toFinset ∩ R.toFinset).card : ℚ) / (R.toFinset.card : ℚ) ↔
        ∃ s ∈ S, s ∈ R) ∧
      ((¬ ∃ s ∈ S, s ∈ R) →
        calculate_precision S R = 0 ∧
          ((S.toFinset ∩ R.toFinset).card : ℚ) / (R.toFinset.card : ℚ) = 0) := by
  have hRne : R ≠ [] := by rintro rfl; exact hdup List.nodup_nil
  have hlen : R.length ≠ 0 := fun hl => hRne (List.length_eq_zero.mp hl)
  obtain ⟨r, hr⟩ := List.exists_mem_of_ne_nil R hRne
  have hcardR_pos : 0 < R.toFinset.card :=
    Finset.card_pos.mpr ⟨r, List.mem_toFinset.mpr hr⟩
  have hdedup_lt : R.dedup.length < R.length := by
    refine lt_of_le_of_ne R.dedup_sublist.length_le (fun heq => hdup ?_)
    rw [← List.dedup_eq_self]
    exact R.dedup_sublist.eq_of_length heq
  have hcard_lt : R.toFinset.card < R.length := by
    rw [R.card_toFinset]; exact hdedup_lt
  have hcp : calculate_precision S R =
      ((S.toFinset ∩ R.toFinset).card : ℚ) / (R.length : ℚ) := by
    rw [calculate_precision, if_neg hlen, intersectionCount_eq_card]
  have hI0 : (¬ ∃ s ∈ S, s ∈ R) → (S.toFinset ∩ R.toFinset).card = 0 := by
    intro h
    rw [Finset.card_eq_zero, Finset.eq_empty_iff_forall_not_mem]
    intro x hx
    rcases Finset.mem_inter.mp hx with ⟨hxS, hxR⟩
    exact h ⟨x, List.mem_toFinset.mp hxS, List.mem_toFinset.mp hxR⟩
  refine ⟨?_, calculate_precision_nonneg S R, calculate_precision_le_one S R, ⟨?_, ?_⟩, ?_⟩
  · rw [hcp]
    exact div_le_div_of_nonneg_left (by positivity) (by exact_mod_cast hcardR_pos)
      (by exact_mod_cast le_of_lt hcard_lt)
  · intro hlt
    by_contra h
    rw [hcp, hI0 h] at hlt
    simp at hlt
  · rintro ⟨s, hsS, hsR⟩
    have hcard_pos : 0 < (S.toFinset ∩ R.toFinset).card :=
      Finset.card_pos.mpr
        ⟨s, Finset.mem_inter.mpr ⟨List.mem_toFinset.mpr hsS, List.mem_toFinset.mpr hsR⟩⟩
    rw [hcp]
    exact div_lt_div_of_pos_left (by exact_mod_cast hcard_pos)
      (by exact_mod_cast hcardR_pos) (by exact_mod_cast hcard_lt)
  · intro h
    rw [hcp, hI0 h]
    norm_num

/-- Counterexample for C9 as stated: `S = ["b"]`, `R = ["a", "a"]` has a
duplicated requirement but an empty intersection, and the computed precision
`0` equals the set-based ratio `0/1` instead of being strictly smaller. -/
theorem precision_duplicates_cex :
    ¬ (["a", "a"] : List String).Nodup ∧
      ¬ (calculate_precision ["b"] ["a", "a"] <
          (((["b"] : List String).toFinset ∩ (["a", "a"] : List String).toFinset).card : ℚ) /
            (((["a", "a"] : List String).toFinset.card : ℚ))) := by
  refine ⟨by decide, ?_⟩
  have h1 : calculate_precision ["b"] ["a", "a"] = 0 := by
    have h : intersectionCount ["b"] ["a", "a"] = 0 := by decide
    simp [calculate_precision, h]
  have h2 : ((["b"] : List String).toFinset ∩ (["a", "a"] : List String).toFinset).card = 0 := by
    decide
  rw [h1, h2]
  norm_num

/-- Witness for the amended C9, applying it at `S = ["a"]`, `R = ["a", "a"]`
(non-empty intersection: `1/2 < 1/1`) and at `S = ["b"]`, `R = ["a", "a"]`
(empty intersection, discharging the last conjunct's hypothesis: both values
are `0`). -/
theorem precision_duplicates_strict_witness :
    (¬ (["a", "a"] : List String).Nodup ∧
      (calculate_precision ["a"] ["a", "a"] ≤
          (((["a"] : List String).toFinset ∩ (["a", "a"] : List String).toFinset).card : ℚ) /
            (((["a", "a"] : List String).toFinset.card : ℚ)) ∧
        0 ≤ calculate_precision ["a"] ["a", "a"] ∧
        calculate_precision ["a"] ["a", "a"] ≤ 1 ∧
        (calculate_precision ["a"] ["a", "a"] <
            (((["a"] : List String).toFinset ∩
                (["a", "a"] : List String).toFinset).card : ℚ) /
              (((["a", "a"] : List String).toFinset.card : ℚ)) ↔
          ∃ s ∈ (["a"] : List String), s ∈ (["a", "a"] : List String)) ∧
        ((¬ ∃ s ∈ (["a"] : List String), s ∈ (["a", "a"] : List String)) →
          calculate_precision ["a"] ["a", "a"] = 0 ∧
            (((["a"] : List String).toFinset ∩
                (["a", "a"] : List String).toFinset).card : ℚ) /
              (((["a", "a"] : List String).toFinset.card : ℚ)) = 0))) ∧
      (¬ (∃ s ∈ (["b"] : List String), s ∈ (["a", "a"] : List String)) ∧
        calculate_precision ["b"] ["a", "a"] = 0 ∧
          (((["b"] : List String).toFinset ∩ (["a", "a"] : List String).toFinset).card : ℚ) /
            (((["a", "a"] : List String).toFinset.card : ℚ)) = 0) :=
  ⟨⟨by decide, precision_duplicates_strict ["a"] ["a", "a"] (by decide)⟩,
    by decide, (precision_duplicates_strict ["b"] ["a", "a"] (by decide)).2.2.2.2 (by decide)⟩

/-! ### Helper lemmas about the stable descending sort -/

lemma mem_insertDesc {x a : Vacancy} {l : List Vacancy} :
    x ∈ insertDesc a l ↔ x = a ∨ x ∈ l := by
  induction l with
  | nil => simp [insertDesc]
  | cons b rest ih =>
    rw [insertDesc]
    split
    · simp [List.mem_cons]
    · simp only [List.mem_cons, ih]
      tauto

lemma length_insertDesc (a : Vacancy) (l : List Vacancy) :
    (insertDesc a l).length = l.length + 1 := by
  induction l with
  | nil => rfl
  | cons b rest ih =>
    rw [insertDesc]
    split
    · rfl
    · simp [ih]

lemma length_sortDescBySimilarity (l : List Vacancy) :
    (sortDescBySimilarity l).length = l.length := by
  induction l with
  | nil => rfl
  | cons a rest ih => rw [sortDescBySimilarity, length_insertDesc, ih]; rfl

lemma pairwise_insertDesc (a : Vacancy) (l : List Vacancy)
    (h : l.Pairwise (fun x y => y.similarity ≤ x.similarity)) :
    (insertDesc a l).Pairwise (fun x y => y.similarity ≤ x.similarity) := by
  induction l with
  | nil => simp [insertDesc]
  | cons b rest ih =>
    rw [List.pairwise_cons] at h
    rw [insertDesc]
    split
    · rename_i hba
      refine List.Pairwise.cons (fun y hy => ?_) (List.pairwise_cons.mpr h)
      rcases List.mem_cons.mp hy with rfl | hy'
      · exact hba
      · exact le_trans (h.1 y hy') hba
    · rename_i hba
      refine List.Pairwise.cons (fun y hy => ?_) (ih h.2)
      rcases mem_insertDesc.mp hy with rfl | hy'
      · exact le_of_lt (lt_of_not_le hba)
      · exact h.1 y hy'

lemma pairwise_sortDescBySimilarity (l : List Vacancy) :
    (sortDescBySimilarity l).Pairwise (fun x y => y.similarity ≤ x.similarity) := by
  induction l with
  | nil => exact List.Pairwise.nil
  | cons a rest ih => exact pairwise_insertDesc a _ ih

lemma filter_insertDesc (a : Vacancy) (l : List Vacancy) (q : ℚ) :
    (insertDesc a l).filter (fun x => decide (x.similarity = q)) =
      if a.similarity = q then
        a :: l.filter (fun x => decide (x.similarity = q))
      else l.filter (fun x => decide (x.similarity = q)) := by
  induction l with
  | nil =>
    rw [insertDesc]
    by_cases haq : a.similarity = q
    · simp [List.filter, haq]
    · simp [List.filter, haq]
  | cons b rest ih =>
    rw [insertDesc]
    split
    · rename_i hba
      by_cases haq : a.similarity = q
      · simp [List.filter_cons, haq]
      · simp [List.filter_cons, haq]
    · rename_i hba
      by_cases haq : a.similarity = q
      · have hbq : ¬ b.similarity = q := fun hbq => hba (le_of_eq (haq ▸ hbq))
        simp [List.filter_cons, ih, haq, hbq]
      · simp [List.filter_cons, ih, haq]

lemma filter_sortDescBySimilarity (l : List Vacancy) (q : ℚ) :
    (sortDescBySimilarity l).filter (fun x => decide (x.similarity = q)) =
      l.filter (fun x => decide (x.similarity = q)) := by
  induction l with
  | nil => rfl
  | cons a rest ih =>
    rw [sortDescBySimilarity, filter_insertDesc]
    by_cases haq : a.similarity = q
    · simp [List.filter_cons, haq, ih]
    · simp [List.filter_cons, haq, ih]

/-- C7 (amended): `get_top_vacancies` stably sorts by precision descending
(conjuncts 1-3: the sorted list is pairwise non-increasing, keeps every
equal-precision class in original order, and has the input's length) and then
applies Python's slice `[:n]`: the first `n` elements when `n ≥ 0` — in
particular the empty list for `n = 0` — but for *negative* `n` it drops the
last `|n|` elements (Python slicing), not returning the empty sequence the
original claim states; `n` defaults to 3. -/
theorem get_top_vacancies_spec (v : List Vacancy) (n : Int) :
    (sortDescBySimilarity v).Pairwise (fun x y => y.similarity ≤ x.similarity) ∧
      (∀ q : ℚ, (sortDescBySimilarity v).filter (fun x => decide (x.similarity = q)) =
        v.filter (fun x => decide (x.similarity = q))) ∧
      (sortDescBySimilarity v).length = v.length ∧
      (0 ≤ n → get_top_vacancies v n = (sortDescBySimilarity v).take n.toNat) ∧
      (n < 0 → get_top_vacancies v n = (sortDescBySimilarity v).take (v.length - n.natAbs)) ∧
      get_top_vacancies v 0 = [] ∧
      get_top_vacancies v = get_top_vacancies v 3 := by
  refine ⟨pairwise_sortDescBySimilarity v, fun q => filter_sortDescBySimilarity v q,
    length_sortDescBySimilarity v, fun hn => ?_, fun hn => ?_, ?_, rfl⟩
  · rw [get_top_vacancies, pySliceTo, if_pos hn]
  · rw [get_top_vacancies, pySliceTo, if_neg (not_le.mpr hn), length_sortDescBySimilarity]
  · rw [get_top_vacancies, pySliceTo, if_pos le_rfl]
    rfl

/-- Two concrete vacancies used to exercise `get_top_vacancies`. -/
def vacLow : Vacancy := ⟨"Low", "uLow", "", ["sql"], 0⟩

def vacHigh : Vacancy := ⟨"High", "uHigh", "", ["python"], 1⟩

/-- Counterexample for C7 as stated: with two vacancies and `n = -1`, Python's
slice `[:-1]` keeps the first element of the sorted list, so the result is not
the empty sequence the claim requires for negative `n`. -/
theorem get_top_vacancies_negative_cex :
    get_top_vacancies [vacLow, vacHigh] (-1) = [vacHigh] ∧
      get_top_vacancies [vacLow, vacHigh] (-1) ≠ [] := by
  constructor
  · decide
  · decide

/-- Witness for the amended C7, applying it at `n = 2 ≥ 0` and at
`n = -1 < 0` on a concrete two-vacancy list. -/
theorem get_top_vacancies_spec_witness :
    (0 ≤ (2 : Int) ∧
      get_top_vacancies [vacLow, vacHigh] 2 =
        (sortDescBySimilarity [vacLow, vacHigh]).take (Int.toNat 2)) ∧
      ((-1 : Int) < 0 ∧
        get_top_vacancies [vacLow, vacHigh] (-1) =
          (sortDescBySimilarity [vacLow, vacHigh]).take
            (([vacLow, vacHigh] : List Vacancy).length - Int.natAbs (-1))) :=
  ⟨⟨by decide, ((get_top_vacancies_spec [vacLow, vacHigh] 2).2.2.2.1 (by decide))⟩,
    ⟨by decide, ((get_top_vacancies_spec [vacLow, vacHigh] (-1)).2.2.2.2.1 (by decide))⟩⟩

/-! ### Helper lemmas about the recommendation engine -/

lemma recommend_courses_loop (skills : List String) :
    ∀ acc : List (String × String),
      skills.foldl
          (fun recommendations skill =>
            recommendations ++ [(skill, "https://www.coursera.org/search?query=" ++ skill)])
          acc =
        acc ++ skills.map (fun skill => (skill, "https://www.coursera.org/search?query=" ++ skill)) := by
  induction skills with
  | nil => intro acc; simp
  | cons s rest ih =>
    intro acc
    rw [List.foldl_cons, ih, List.map_cons]
    simp

lemma recommend_courses_eq_map (skills : List String) :
    recommend_courses skills =
      skills.map (fun skill => (skill, "https://www.coursera.org/search?query=" ++ skill)) := by
  rw [recommend_courses, recommend_courses_loop, List.nil_append]

lemma mem_get_missing_skills {s : String} {user required : List String} :
    s ∈ get_missing_skills user required ↔ s ∈ required ∧ s ∉ user := by
  simp [get_missing_skills, List.mem_dedup, List.mem_filter]

lemma mem_setUpdate {s : String} {acc xs : List String} :
    s ∈ setUpdate acc xs ↔ s ∈ acc ∨ s ∈ xs := by
  simp only [setUpdate, List.mem_append, List.mem_filter, decide_eq_true_eq]
  tauto

lemma nodup_setUpdate {acc xs : List String} (hacc : acc.Nodup) (hxs : xs.Nodup) :
    (setUpdate acc xs).Nodup := by
  rw [setUpdate, List.nodup_append]
  refine ⟨hacc, hxs.filter _, fun a ha hafilter => ?_⟩
  have := (List.mem_filter.mp hafilter).2
  simp only [decide_eq_true_eq] at this
  exact this ha

lemma foldl_missing_nodup (user : List String) (thr : ℚ) :
    ∀ (vacs : List Vacancy) (acc : List String), acc.Nodup →
      (vacs.foldl
          (fun acc v =>
            if v.similarity < thr then
              setUpdate acc (get_missing_skills user v.vacancy_skills)
            else acc)
          acc).Nodup := by
  intro vacs
  induction vacs with
  | nil => exact fun acc h => h
  | cons v rest ih =>
    intro acc h
    rw [List.foldl_cons]
    split
    · exact ih _ (nodup_setUpdate h (List.nodup_dedup _))
    · exact ih _ h

lemma mem_foldl_missing (user : List String) (thr : ℚ) :
    ∀ (vacs : List Vacancy) (acc : List String) (s : String),
      s ∈ vacs.foldl
          (fun acc v =>
            if v.similarity < thr then
              setUpdate acc (get_missing_skills user v.vacancy_skills)
            else acc)
          acc ↔
        s ∈ acc ∨ ∃ v ∈ vacs, v.similarity < thr ∧ s ∈ v.vacancy_skills ∧ s ∉ user := by
  intro vacs
  induction vacs with
  | nil => intro acc s; simp
  | cons v rest ih =>
    intro acc s
    rw [List.foldl_cons]
    by_cases hv : v.similarity < thr
    · rw [if_pos hv, ih, mem_setUpdate, mem_get_missing_skills]
      constructor
      · rintro ((h | h) | ⟨v', hv', h⟩)
        · exact Or.inl h
        · exact Or.inr ⟨v, List.mem_cons_self v rest, hv, h.1, h.2⟩
        · exact Or.inr ⟨v', List.mem_cons_of_mem v hv', h⟩
      · rintro (h | ⟨v', hv', h⟩)
        · exact Or.inl (Or.inl h)
        · rcases List.mem_cons.mp hv' with rfl | hv''
          · exact Or.inl (Or.inr ⟨h.2.1, h.2.2⟩)
          · exact Or.inr ⟨v', hv'', h⟩
    · rw [if_neg hv, ih]
      constructor
      · rintro (h | ⟨v', hv', h⟩)
        · exact Or.inl h
        · exact Or.inr ⟨v', List.mem_cons_of_mem v hv', h⟩
      · rintro (h | ⟨v', hv', h⟩)
        · exact Or.inl h
        · rcases List.mem_cons.mp hv' with rfl | hv''
          · exact absurd h.1 hv
          · exact Or.inr ⟨v', hv'', h⟩

lemma mem_missingUnion {s : String} {user : List String} {vacs : List Vacancy} {thr : ℚ} :
    s ∈ missingUnion user vacs thr ↔
      ∃ v ∈ vacs, v.similarity < thr ∧ s ∈ v.vacancy_skills ∧ s ∉ user := by
  rw [missingUnion, mem_foldl_missing]
  simp

lemma nodup_missingUnion (user : List String) (vacs : List Vacancy) (thr : ℚ) :
    (missingUnion user vacs thr).Nodup :=
  foldl_missing_nodup user thr vacs [] List.nodup_nil

/-- C10: the course-recommendation loop returns one `(skill, url)` pair per
input skill, in input order, with the URL being the literal concatenation of
the Coursera search prefix and the raw skill text — no percent-encoding
(contrast `generate_recommendations`, which runs `quote_plus` on the title). -/
theorem recommend_courses_spec (skills : List String) :
    recommend_courses skills =
      skills.map (fun skill => (skill, "https://www.coursera.org/search?query=" ++ skill)) :=
  recommend_courses_eq_map skills

/-- C5: with `U` the union of missing-skill sets over the below-threshold
vacancies (conjunct 1 characterises that union, conjunct 2 its
duplicate-freeness): if `|U| > 3` the outcome is a broad-search link whose URL
contains the percent-encoded title, and if `U` is non-empty with `|U| ≤ 3` the
outcome is a course list with exactly `|U|` entries, one per distinct missing
skill. -/
theorem generate_recommendations_spec (title : String) (user : List String)
    (vacs : List Vacancy) (thr : ℚ) :
    (∀ s, s ∈ missingUnion user vacs thr ↔
        ∃ v ∈ vacs, v.similarity < thr ∧ s ∈ v.vacancy_skills ∧ s ∉ user) ∧
      (missingUnion user vacs thr).Nodup ∧
      (3 < (missingUnion user vacs thr).length →
        ∃ pre suf, generate_recommendations title user vacs thr =
          .broadLink (pre ++ quote_plus title ++ suf)) ∧
      (missingUnion user vacs thr ≠ [] → (missingUnion user vacs thr).length ≤ 3 →
        ∃ cs, generate_recommendations title user vacs thr = .courseList cs ∧
          cs.length = (missingUnion user vacs thr).length ∧
          cs.map Prod.fst = missingUnion user vacs thr) := by
  refine ⟨fun s => mem_missingUnion, nodup_missingUnion user vacs thr, fun hgt => ?_, ?_⟩
  · refine ⟨"https://www.coursera.org/search?query=", "", ?_⟩
    rw [generate_recommendations, if_pos hgt, String.append_empty]
  · intro hne hle
    rw [generate_recommendations, if_neg (not_lt.mpr hle), if_neg hne]
    refine ⟨recommend_courses (missingUnion user vacs thr), rfl, ?_, ?_⟩
    · rw [recommend_courses_eq_map, List.length_map]
    · rw [recommend_courses_eq_map, List.map_map]
      exact List.map_id _

/-- A vacancy whose four missing skills trigger the broad-search branch. -/
def vacBroad : Vacancy := ⟨"V4", "u4", "", ["a", "b", "c", "d"], 0⟩

/-- A vacancy whose single missing skill triggers the course-list branch. -/
def vacOne : Vacancy := ⟨"V1", "u1", "", ["a"], 0⟩

/-- Witness for C5, applying it on the broad-search side (4 missing skills,
title with a space that `quote_plus` encodes as `+`) and on the course-list
side (1 missing skill). -/
theorem generate_recommendations_spec_witness :
    (3 < (missingUnion [] [vacBroad] (4/5)).length ∧
      ∃ pre suf, generate_recommendations "Data Scientist" [] [vacBroad] (4/5) =
        .broadLink (pre ++ quote_plus "Data Scientist" ++ suf)) ∧
      (missingUnion [] [vacOne] (4/5) ≠ [] ∧
        (missingUnion [] [vacOne] (4/5)).length ≤ 3 ∧
        ∃ cs, generate_recommendations "T" [] [vacOne] (4/5) = .courseList cs ∧
          cs.length = (missingUnion [] [vacOne] (4/5)).length ∧
          cs.map Prod.fst = missingUnion [] [vacOne] (4/5)) := by
  have h0 : (0 : ℚ) < 4/5 := by norm_num
  have hB : missingUnion [] [vacBroad] (4/5) = ["a", "b", "c", "d"] := by
    simp only [missingUnion, List.foldl, vacBroad, if_pos h0]
    decide
  have hO : missingUnion [] [vacOne] (4/5) = ["a"] := by
    simp only [missingUnion, List.foldl, vacOne, if_pos h0]
    decide
  have hlenB : 3 < (missingUnion [] [vacBroad] (4/5)).length := by rw [hB]; decide
  have hneO : missingUnion [] [vacOne] (4/5) ≠ [] := by rw [hO]; decide
  have hleO : (missingUnion [] [vacOne] (4/5)).length ≤ 3 := by rw [hO]; decide
  exact ⟨⟨hlenB, (generate_recommendations_spec "Data Scientist" [] [vacBroad] (4/5)).2.2.1 hlenB⟩,
    hneO, hleO, (generate_recommendations_spec "T" [] [vacOne] (4/5)).2.2.2 hneO hleO⟩

/-! ### Helper lemmas about the fetch loop and the evaluation pipeline -/

lemma fetchLoop_eq_none (fetch : String → Option VacancyData) (user : List String) :
    ∀ (links : List String) (l : String), l ∈ links → fetch l = none →
      fetchLoop fetch user links = none := by
  intro links
  induction links with
  | nil => intro l hl; exact absurd hl (List.not_mem_nil l)
  | cons x rest ih =>
    intro l hl hnone
    rcases List.mem_cons.mp hl with rfl | hmem
    · simp only [fetchLoop, hnone]
    · cases hx : fetch x
      · simp only [fetchLoop, hx]
      · simp only [fetchLoop, hx, ih l hmem hnone]

lemma fetchLoop_all_some (fetch : String → Option VacancyData) (user : List String) :
    ∀ links : List String, (∀ l ∈ links, (fetch l).isSome) →
      ∃ vs : List Vacancy,
        fetchLoop fetch user links = some (vs.map Vacancy.similarity, vs) ∧
          vs.length = links.length ∧
          ∀ v ∈ vs, v.similarity = calculate_precision user v.vacancy_skills := by
  intro links
  induction links with
  | nil => exact fun _ => ⟨[], rfl, rfl, by simp⟩
  | cons x rest ih =>
    intro h
    obtain ⟨d, hd⟩ := Option.isSome_iff_exists.mp (h x (List.mem_cons_self x rest))
    obtain ⟨vs, hvs, hlen, hsim⟩ := ih (fun l hl => h l (List.mem_cons_of_mem x hl))
    refine ⟨mkVacancy user d :: vs, ?_, by simp [hlen], ?_⟩
    · simp only [fetchLoop, hd, hvs, List.map_cons]
    · intro v hv
      rcases List.mem_cons.mp hv with rfl | hv'
      · rfl
      · exact hsim v hv'

/-- C2: whenever every posting reference resolves and there is at least one,
the evaluation returns a normal result whose `similarity_score` is the
arithmetic mean of the per-vacancy precision list (each entry being the
precision of the corresponding vacancy), and it takes the ready branch
(questions plus top vacancies) exactly when that mean is `≥ threshold_ready`
(whose Python default is `0.8`). -/
theorem readiness_branch_iff (fetch : String → Option VacancyData)
    (questionsOracle : String → List String) (vacancy_title : String)
    (applicant_skills : List String) (links : List String) (threshold_ready : ℚ)
    (h1 : links ≠ []) (h2 : ∀ l ∈ links, (fetch l).isSome) :
    ∃ (r : AnalysisResult) (vs : List Vacancy),
      vacancy_description_and_applicant_skills fetch questionsOracle vacancy_title
          applicant_skills links threshold_ready = .ok r ∧
        fetchLoop fetch (applicant_skills.map lowerString) links =
          some (r.precision_list, vs) ∧
        r.precision_list = vs.map Vacancy.similarity ∧
        (∀ v ∈ vs, v.similarity =
          calculate_precision (applicant_skills.map lowerString) v.vacancy_skills) ∧
        r.precision_list.length = links.length ∧
        r.precision_list ≠ [] ∧
        r.similarity_score = r.precision_list.sum / (r.precision_list.length : ℚ) ∧
        ((∃ qs offers, r.branch = .ready qs offers) ↔
          threshold_ready ≤ r.similarity_score) := by
  obtain ⟨vs, hvs, hlen, hsim⟩ :=
    fetchLoop_all_some fetch (applicant_skills.map lowerString) links h2
  have hplen : (vs.map Vacancy.similarity).length = links.length := by
    rw [List.length_map]; exact hlen
  have hlen0 : (vs.map Vacancy.similarity).length ≠ 0 := by
    rw [hplen]
    exact fun h0 => h1 (List.length_eq_zero.mp h0)
  have hpne : vs.map Vacancy.similarity ≠ [] :=
    fun h0 => hlen0 (by rw [h0]; rfl)
  by_cases hbr : threshold_ready ≤
      (vs.map Vacancy.similarity).sum / ((vs.map Vacancy.similarity).length : ℚ)
  · refine ⟨⟨(vs.map Vacancy.similarity).sum / ((vs.map Vacancy.similarity).length : ℚ),
        vs.map Vacancy.similarity,
        .ready (questionsOracle vacancy_title) (get_top_vacancies vs)⟩,
      vs, ?_, hvs, rfl, hsim, hplen, hpne, rfl, ?_⟩
    · simp only [vacancy_description_and_applicant_skills, hvs]
      rw [if_neg hlen0, if_pos hbr]
    · exact ⟨fun _ => hbr, fun _ => ⟨_, _, rfl⟩⟩
  · refine ⟨⟨(vs.map Vacancy.similarity).sum / ((vs.map Vacancy.similarity).length : ℚ),
        vs.map Vacancy.similarity,
        .notReady
          (generate_recommendations vacancy_title (applicant_skills.map lowerString) vs)⟩,
      vs, ?_, hvs, rfl, hsim, hplen, hpne, rfl, ?_⟩
    · simp only [vacancy_description_and_applicant_skills, hvs]
      rw [if_neg hlen0, if_neg hbr]
    · refine iff_of_false ?_ hbr
      rintro ⟨qs, offers, hq⟩
      exact Branch.noConfusion hq

/-- The single vacancy response used by the C2 witness. -/
def dataC2 : VacancyData := ⟨"N", "uN", "", ["Python"]⟩

/-- Fetch oracle for the C2 witness: one good link `"L"`. -/
def fetchC2 : String → Option VacancyData := fun l => if l = "L" then some dataC2 else none

/-- Witness for C2 at a one-link input whose fetch succeeds. -/
theorem readiness_branch_iff_witness :
    (["L"] : List String) ≠ [] ∧ (∀ l ∈ (["L"] : List String), (fetchC2 l).isSome) ∧
      ∃ (r : AnalysisResult) (vs : List Vacancy),
        vacancy_description_and_applicant_skills fetchC2 (fun _ => []) "T"
            ["Python"] ["L"] (4/5) = .ok r ∧
          fetchLoop fetchC2 ((["Python"] : List String).map lowerString) ["L"] =
            some (r.precision_list, vs) ∧
          r.precision_list = vs.map Vacancy.similarity ∧
          (∀ v ∈ vs, v.similarity =
            calculate_precision ((["Python"] : List String).map lowerString)
              v.vacancy_skills) ∧
          r.precision_list.length = (["L"] : List String).length ∧
          r.precision_list ≠ [] ∧
          r.similarity_score = r.precision_list.sum / (r.precision_list.length : ℚ) ∧
          ((∃ qs offers, r.branch = .ready qs offers) ↔
            (4:ℚ)/5 ≤ r.similarity_score) :=
  ⟨by decide, by decide,
    readiness_branch_iff fetchC2 (fun _ => []) "T" ["Python"] ["L"] (4/5)
      (by decide) (by decide)⟩

/-- C3 (amended): a reference whose retrieval or parse fails is *fatal* to the
whole batch — the fetch loop yields `none` and the analysis call returns
Python `None` — while the fetch stage returns all records (in input order)
only when every reference succeeds. -/
theorem fetch_failure_aborts_batch (fetch : String → Option VacancyData)
    (user : List String) (links : List String) :
    ((∃ l ∈ links, fetch l = none) → fetchLoop fetch user links = none) ∧
      (∀ (questionsOracle : String → List String) (title : String)
          (skills : List String) (thr : ℚ), (∃ l ∈ links, fetch l = none) →
        vacancy_description_and_applicant_skills fetch questionsOracle title skills links thr =
          .noneResult) ∧
      ((∀ l ∈ links, (fetch l).isSome) →
        ∃ vs : List Vacancy,
          fetchLoop fetch user links = some (vs.map Vacancy.similarity, vs) ∧
            vs.length = links.length) := by
  refine ⟨?_, ?_, ?_⟩
  · rintro ⟨l, hl, hnone⟩
    exact fetchLoop_eq_none fetch user links l hl hnone
  · rintro questionsOracle title skills thr ⟨l, hl, hnone⟩
    simp only [vacancy_description_and_applicant_skills,
      fetchLoop_eq_none fetch (skills.map lowerString) links l hl hnone]
  · intro h
    obtain ⟨vs, hvs, hlen, -⟩ := fetchLoop_all_some fetch user links h
    exact ⟨vs, hvs, hlen⟩

/-- The successfully fetched response of the C3 counterexample. -/
def dataGood : VacancyData := ⟨"G", "uG", "", ["Python"]⟩

/-- Fetch oracle with one failing reference (`"bad"`) and one good one
(`"good"`). -/
def fetchOneBad : String → Option VacancyData :=
  fun l => if l = "good" then some dataGood else none

/-- Counterexample for C3 as stated: with references `["bad", "good"]` the
reference `"bad"` fails while `"good"` alone resolves fine, yet the fetch
stage returns `none` (the whole analysis returns Python `None`) instead of
the non-empty subsequence of successfully resolved records. -/
theorem fetch_failure_not_skipped_cex :
    fetchOneBad "bad" = none ∧
      (fetchLoop fetchOneBad [] ["good"]).isSome = true ∧
      fetchLoop fetchOneBad [] ["bad", "good"] = none ∧
      vacancy_description_and_applicant_skills fetchOneBad (fun _ => []) "T" []
        ["bad", "good"] (4/5) = .noneResult :=
  ⟨rfl, rfl, rfl, rfl⟩

/-- Witness for the amended C3, applying it to a batch with one failing
reference (abort side) and to a batch whose single reference succeeds
(all-success side). -/
theorem fetch_failure_aborts_batch_witness :
    ((∃ l ∈ (["bad", "good"] : List String), fetchOneBad l = none) ∧
      fetchLoop fetchOneBad [] ["bad", "good"] = none ∧
      vacancy_description_and_applicant_skills fetchOneBad (fun _ => []) "T" []
        ["bad", "good"] (4/5) = .noneResult) ∧
      ((∀ l ∈ (["good"] : List String), (fetchOneBad l).isSome) ∧
        ∃ vs : List Vacancy,
          fetchLoop fetchOneBad [] ["good"] = some (vs.map Vacancy.similarity, vs) ∧
            vs.length = (["good"] : List String).length) := by
  have hbad : ∃ l ∈ (["bad", "good"] : List String), fetchOneBad l = none := by decide
  have hgood : ∀ l ∈ (["good"] : List String), (fetchOneBad l).isSome := by decide
  exact ⟨⟨hbad, (fetch_failure_aborts_batch fetchOneBad [] ["bad", "good"]).1 hbad,
      (fetch_failure_aborts_batch fetchOneBad [] ["bad", "good"]).2.1
        (fun _ => []) "T" [] (4/5) hbad⟩,
    hgood, (fetch_failure_aborts_batch fetchOneBad [] ["good"]).2.2 hgood⟩

/-- C4: with an empty posting-reference list the fetch loop yields zero
records, and the code reaches `sum(precisions) / len(precisions)` with
`len = 0`: an uncaught `ZeroDivisionError` escapes
`vacancy_description_and_applicant_skills` (only `requests.RequestException`
is caught), instead of any tagged empty-input failure. -/
theorem empty_links_uncaught_zero_division (fetch : String → Option VacancyData)
    (questionsOracle : String → List String) (title : String) (skills : List String)
    (thr : ℚ) :
    vacancy_description_and_applicant_skills fetch questionsOracle title skills [] thr =
      .zeroDivisionError := rfl

/-- C6 (amended): on the not-ready branch the Recommendation Engine is always
invoked with `generate_recommendations`'s own default threshold `0.8`
(`4/5`), not with the `threshold_ready` the branch comparison used. -/
theorem notReady_uses_default_threshold (fetch : String → Option VacancyData)
    (questionsOracle : String → List String) (title : String) (skills : List String)
    (links : List String) (thr : ℚ) (ps : List ℚ) (vs : List Vacancy)
    (hf : fetchLoop fetch (skills.map lowerString) links = some (ps, vs))
    (hne : ps ≠ []) (hlt : ps.sum / (ps.length : ℚ) < thr) :
    vacancy_description_and_applicant_skills fetch questionsOracle title skills links thr =
      .ok { similarity_score := ps.sum / (ps.length : ℚ)
            precision_list := ps
            branch := .notReady
              (generate_recommendations title (skills.map lowerString) vs (4/5)) } := by
  have hlen0 : ps.length ≠ 0 := fun h0 => hne (List.length_eq_zero.mp h0)
  simp only [vacancy_description_and_applicant_skills, hf]
  rw [if_neg hlen0, if_neg (not_le.mpr hlt)]

/-! ### Concrete instance separating `threshold_ready` from the
recommendation threshold (claim C6) -/

/-- A vacancy requiring six skills, five of which the applicant below has. -/
def dataSix : VacancyData := ⟨"V", "uV", "", ["a", "b", "c", "d", "e", "f"]⟩

/-- Fetch oracle resolving the single link `"L"` to `dataSix`. -/
def fetchSix : String → Option VacancyData := fun l => if l = "L" then some dataSix else none

/-- The applicant skills for the C6 instance. -/
def userSix : List String := ["a", "b", "c", "d", "e"]

/-- The vacancy record the fetch loop builds for the C6 instance. -/
def vacSix : Vacancy := mkVacancy (userSix.map lowerString) dataSix

/-- The precision list the fetch loop accumulates for the C6 instance. -/
def psSix : List ℚ := [vacSix.similarity]

lemma vacSix_similarity : vacSix.similarity = 5/6 := by
  have hcount :
      intersectionCount (userSix.map lowerString) (dataSix.key_skills.map lowerString) =
        5 := by decide
  have hlen6 : (dataSix.key_skills.map lowerString).length = 6 := by decide
  show calculate_precision (userSix.map lowerString) (dataSix.key_skills.map lowerString) =
    5/6
  rw [calculate_precision, if_neg (by rw [hlen6]; decide), hcount, hlen6]
  norm_num

lemma psSix_score : psSix.sum / (psSix.length : ℚ) = 5/6 := by
  have : psSix.sum = vacSix.similarity := by
    rw [psSix, List.sum_cons, List.sum_nil, add_zero]
  rw [this, vacSix_similarity]
  norm_num [psSix]

/-- Counterexample for C6 as stated: `threshold_ready = 9/10`, one vacancy of
precision `5/6 < 9/10`, so the evaluation takes the not-ready branch — but the
code invokes the Recommendation Engine with its own default threshold `0.8`,
yielding `None`, whereas invoking it with the same `threshold_ready = 9/10`
(as the claim states) yields a one-course list for the missing skill `"f"`. -/
theorem recommendation_threshold_cex :
    vacancy_description_and_applicant_skills fetchSix (fun _ => []) "T" userSix ["L"]
        (9/10) =
      .ok ⟨psSix.sum / (psSix.length : ℚ), psSix, .notReady RecResult.noneVal⟩ ∧
      generate_recommendations "T" (userSix.map lowerString) [vacSix] (9/10) =
        .courseList [("f", "https://www.coursera.org/search?query=f")] ∧
      RecResult.noneVal ≠
        RecResult.courseList [("f", "https://www.coursera.org/search?query=f")] := by
  refine ⟨?_, ?_, by decide⟩
  · have hf : fetchLoop fetchSix (userSix.map lowerString) ["L"] = some (psSix, [vacSix]) :=
      rfl
    have hlen0 : psSix.length ≠ 0 := by rw [psSix]; decide
    have hgen :
        generate_recommendations "T" (userSix.map lowerString) [vacSix] (4/5) =
          .noneVal := by
      have hmu : missingUnion (userSix.map lowerString) [vacSix] (4/5) = [] := by
        simp only [missingUnion, List.foldl]
        rw [if_neg (by rw [vacSix_similarity]; norm_num)]
      simp only [generate_recommendations, hmu]
      decide
    simp only [vacancy_description_and_applicant_skills, hf]
    rw [if_neg hlen0, if_neg (by rw [psSix_score]; norm_num), hgen]
  · have hmu9 : missingUnion (userSix.map lowerString) [vacSix] (9/10) = ["f"] := by
      simp only [missingUnion, List.foldl]
      rw [if_pos (by rw [vacSix_similarity]; norm_num)]
      decide
    simp only [generate_recommendations, hmu9]
    decide

/-- Witness for the amended C6 at the same concrete instance. -/
theorem notReady_uses_default_threshold_witness :
    fetchLoop fetchSix (userSix.map lowerString) ["L"] = some (psSix, [vacSix]) ∧
      psSix ≠ [] ∧
      psSix.sum / (psSix.length : ℚ) < 9/10 ∧
      vacancy_description_and_applicant_skills fetchSix (fun _ => []) "T" userSix ["L"]
          (9/10) =
        .ok ⟨psSix.sum / (psSix.length : ℚ), psSix,
          .notReady (generate_recommendations "T" (userSix.map lowerString) [vacSix]
            (4/5))⟩ := by
  have hlt : psSix.sum / (psSix.length : ℚ) < 9/10 := by rw [psSix_score]; norm_num
  have hne : psSix ≠ [] := by rw [psSix]; decide
  exact ⟨rfl, hne, hlt,
    notReady_uses_default_threshold fetchSix (fun _ => []) "T" userSix ["L"] (9/10) psSix
      [vacSix] rfl hne hlt⟩

end SkillMatch
